import Mathlib

/-!
Verification of `squash_repos_past_commits.py` (branch-history squashing tool).

Python strings are modelled as `List Char`; the inputs in question are ASCII,
so `str.lower()` is modelled by ASCII lowering.  Machine-independent data
(commit hashes) are modelled as `Nat` tokens.  The git backend is an external
collaborator: the commands the script issues are recorded as a trace of
`GitAct` values, and the backend's answers (commit list, command success) come
from a `Backend` record.
-/

/-- ASCII lowering of one character, the behaviour of Python `str.lower()` on
the ASCII inputs this program handles (codes 65..90 map to 97..122). -/
def pyLowerChar (c : Char) : Char :=
  if 65 ≤ c.toNat ∧ c.toNat ≤ 90 then Char.ofNat (c.toNat + 32) else c

/-- Python `s.lower()` on an ASCII string. -/
def pyLower (s : List Char) : List Char := s.map pyLowerChar

/-- Does `hay` start with `needle`? (helper for Python substring membership). -/
def listStarts : List Char → List Char → Bool
  | _, [] => true
  | [], _ :: _ => false
  | a :: as, b :: bs => a == b && listStarts as bs

/-- Python `needle in hay` for strings: `needle` occurs as a contiguous
substring of `hay` (the empty needle always occurs). -/
def hasSub (hay needle : List Char) : Bool :=
  match hay with
  | [] => listStarts [] needle
  | _ :: t => listStarts hay needle || hasSub t needle

/-- ASCII uppercase letter, the `[A-Z]` class of the JIRA regex. -/
def isUpperCh (c : Char) : Bool := 'A' ≤ c && c ≤ 'Z'

/-- ASCII digit, the `\d` class of the JIRA regex (messages are ASCII). -/
def isDigitCh (c : Char) : Bool := '0' ≤ c && c ≤ '9'

/-- Regex word character `\w` = `[A-Za-z0-9_]` (ASCII), used by `\b`. -/
def isWordCh (c : Char) : Bool :=
  ('A' ≤ c && c ≤ 'Z') || ('a' ≤ c && c ≤ 'z') || ('0' ≤ c && c ≤ '9') || c == '_'

/-- Attempt to match the anchored pattern of `re.search(r'\b[A-Z]+-\d{1,5}\b', m)`
at the current position: `prev` is the character just before the position
(`none` at the start of the string), `s` the remaining text.  Greedy `[A-Z]+`
takes the maximal uppercase run (backtracking cannot help, since a shorter run
leaves an uppercase letter where `-` is required); `\d{1,5}` with more than 5
digits available fails for every shortened attempt because the character after
the taken digits is then itself a digit, i.e. a word character, so the final
`\b` fails. -/
def matchJiraAt (prev : Option Char) (s : List Char) : Option (List Char) :=
  let okStart : Bool := match prev with
    | none => true
    | some p => !(isWordCh p)
  if !okStart then none
  else
    let ups := s.takeWhile isUpperCh
    if ups = [] then none
    else
      match s.drop ups.length with
      | '-' :: rest2 =>
        let ds := rest2.takeWhile isDigitCh
        if ds = [] then none
        else if 5 < ds.length then none
        else
          match rest2.drop ds.length with
          | [] => some (ups ++ '-' :: ds)
          | d :: _ => if isWordCh d then none else some (ups ++ '-' :: ds)
      | _ => none

/-- Leftmost search for the JIRA pattern: try each start position from the
left, as `re.search` does. -/
def searchJiraFrom : Option Char → List Char → Option (List Char)
  | prev, s =>
    match matchJiraAt prev s with
    | some m => some m
    | none =>
      match s with
      | [] => none
      | c :: t => searchJiraFrom (some c) t

/-- Model of `extract_jira_number` (source lines 56-62): the first match of
`\b[A-Z]+-\d{1,5}\b` in the commit message, or `None`. -/
def extract_jira_number (commit_message : List Char) : Option (List Char) :=
  searchJiraFrom none commit_message

/-- Model of `jira_number_matches_or_is_irrelevant` (source lines 166-167):
`next == current or not next or not current`.  `extract_jira_number` never
returns an empty string (a match has at least three characters), so Python
truthiness of the value coincides with the option being `some`. -/
def jira_number_matches_or_is_irrelevant
    (current_jira_number next_jira_number : Option (List Char)) : Bool :=
  next_jira_number == current_jira_number
    || next_jira_number.isNone || current_jira_number.isNone

/-- Left-to-right split at single spaces with at most `n` splits; applied to a
reversed string it yields Python `rsplit(' ', n)` reversed (see `pyRsplit5`). -/
def splitSpLeft : Nat → List Char → List (List Char)
  | _, [] => [[]]
  | 0, c :: t => [c :: t]
  | n + 1, c :: t =>
    if c = ' ' then [] :: splitSpLeft n t
    else
      match splitSpLeft (n + 1) t with
      | [] => [[c]]
      | p :: ps => (c :: p) :: ps

/-- Model of Python `commit_info.rsplit(' ', 5)` (source lines 88 and 118):
split from the right at single spaces, at most five splits; the leftover
leftmost field may still contain spaces. -/
def pyRsplit5 (line : List Char) : List (List Char) :=
  ((splitSpLeft 5 line.reverse).map List.reverse).reverse

/-- Model of the `developers` table construction (source line 22):
`{identifier.lower(): dev[0].lower() for dev in developers for identifier in dev}`.
A Python dict built by a comprehension keeps the LAST assignment for a
duplicated key, which is what `dictGet` below returns. -/
def mkAuthorMap (devs : List (List (List Char))) : List (List Char × List Char) :=
  devs.flatMap (fun dev => dev.map (fun ident => (pyLower ident, pyLower (dev.headD []))))

/-- Lookup in the association list representing the Python dict; the entry
added last (deepest in the comprehension order, i.e. furthest right in the
list) wins, matching dict overwrite semantics. -/
def dictGet (m : List (List Char × List Char)) (k : List Char) : Option (List Char) :=
  match m with
  | [] => none
  | e :: rest =>
    match dictGet rest k with
    | some v => some v
    | none => if e.fst = k then some e.snd else none

/-- Model of `get_canonical_author` (source lines 50-53):
`author_map.get(author.lower(), author)`. -/
def get_canonical_author (amap : List (List Char × List Char)) (author : List Char) :
    List Char :=
  (dictGet amap (pyLower author)).getD author

/-- The source's `developers` list (source lines 11-12) is empty. -/
def developers : List (List (List Char)) := []

/-- The source's module-level `author_map` (source line 22). -/
def author_map : List (List Char × List Char) := mkAuthorMap developers

/-- The source's `SQUASH_TIME_DIFFERENCE` constant (source line 16): two weeks
in seconds.  The grouping functions below take the window as the parameter `W`
so that the spec's worked examples, which use other windows, can be stated;
the source always passes this constant. -/
def SQUASH_TIME_DIFFERENCE : Int := 60 * 60 * 24 * 14

/-- The source's `SQUASH_AGE_LIMIT` constant (source line 19).  The age filter
that would use it (source lines 101-103) is commented out, so it never
influences grouping. -/
def SQUASH_AGE_LIMIT : Int := 60 * 60 * 24 * 14

/-- One commit as recovered per branch: `hash` is the commit id `%H` (an
opaque token), `author` the author string recovered by `extract_commit_info`
(name with the email part removed), `timestamp` the `%ct` value, `message` the
full `%B` message the backend returns for `hash`, and `tagged` whether
`git tag --contains hash` printed anything. -/
structure Commit where
  hash : Nat
  author : List Char
  timestamp : Int
  message : List Char
  tagged : Bool
deriving DecidableEq, Repr

/-- Source line 97: `'pull' in commit_message.lower() or 'merge' in commit_message.lower()`. -/
def isMergeCommit (c : Commit) : Bool :=
  hasSub (pyLower c.message) ("pull".toList) || hasSub (pyLower c.message) ("merge".toList)

/-- Source line 98: `'revert' in commit_message.lower()`. -/
def isRevertCommit (c : Commit) : Bool :=
  hasSub (pyLower c.message) ("revert".toList)

/-- Source line 106: the boundary test
`is_merge_commit or is_revert_commit or is_tagged_commit`. -/
def isSpecialCommit (c : Commit) : Bool :=
  isMergeCommit c || isRevertCommit c || c.tagged

/-- The mutable state of the loop in `squash_commits` (source lines 83-85).
The source keeps `(hash, canonical author)` pairs in `current_squash_group`
and `(group, end hash)` pairs in `squashed_commits`; both components are
projections of the member commits, so the state stores the commit records and
the projections are taken where the source reads them. -/
structure LoopState where
  current_squash_group : List Commit
  current_jira_number : Option (List Char)
  squashed_commits : List (List Commit)
deriving DecidableEq, Repr

/-- The author/time half of the adjacency test (source line 135):
`current_author == next_author and 0 < time_difference <= SQUASH_TIME_DIFFERENCE`,
where both authors have been passed through `get_canonical_author`. -/
def pairMerge (W : Int) (a b : Commit) : Prop :=
  get_canonical_author author_map a.author = get_canonical_author author_map b.author ∧
    0 < b.timestamp - a.timestamp ∧ b.timestamp - a.timestamp ≤ W

instance (W : Int) (a b : Commit) : Decidable (pairMerge W a b) :=
  inferInstanceAs (Decidable (_ ∧ _ ∧ _))

/-- Flushing the open group (source pattern at lines 107-108, 141-142,
147-148, 156-157): the group is appended to `squashed_commits` only when its
size is strictly greater than one. -/
def flushEmit (s : LoopState) : List (List Commit) :=
  if 1 < s.current_squash_group.length then s.squashed_commits ++ [s.current_squash_group]
  else s.squashed_commits

/-- One iteration of the `for i, commit_info in enumerate(commits)` loop of
`squash_commits` (source lines 87-153) on commit `c`, where `next?` is
`commits[i+1]` when it exists.  Branches, in source order: the boundary test
(lines 106-111) flushes and resets; with a next commit, the author/time test
(line 135) and the JIRA-compatibility test (line 136) either append `c` and
update `current_jira_number` by `next_jira_number or current_jira_number`
(lines 137-138) or flush and reset (lines 139-150); without a next commit `c`
is appended unconditionally (lines 151-153).  Note that the `next_is_*` flags
the source computes for the next commit (lines 128-130) are never used, and
that `next_jira_number` (line 114) is extracted from the CURRENT commit's
message. -/
def squashStep (W : Int) (c : Commit) (next? : Option Commit) (s : LoopState) : LoopState :=
  if isSpecialCommit c then
    { current_squash_group := [], current_jira_number := none,
      squashed_commits := flushEmit s }
  else
    match next? with
    | some next =>
      if pairMerge W c next then
        if jira_number_matches_or_is_irrelevant s.current_jira_number
            (extract_jira_number c.message) then
          { current_squash_group := s.current_squash_group ++ [c],
            current_jira_number :=
              match extract_jira_number c.message with
              | some j => some j
              | none => s.current_jira_number,
            squashed_commits := s.squashed_commits }
        else
          { current_squash_group := [], current_jira_number := none,
            squashed_commits := flushEmit s }
      else
        { current_squash_group := [], current_jira_number := none,
          squashed_commits := flushEmit s }
    | none =>
      { current_squash_group := s.current_squash_group ++ [c],
        current_jira_number := s.current_jira_number,
        squashed_commits := s.squashed_commits }

/-- The whole loop of `squash_commits` over the oldest-first commit list. -/
def squashLoop (W : Int) : List Commit → LoopState → LoopState
  | [], s => s
  | c :: rest, s => squashLoop W rest (squashStep W c rest.head? s)

/-- The groups handed to `squash_current_group` by one run of
`squash_commits` over `commits`, in emission order: the in-loop flushes plus
the final flush of lines 155-157. -/
def squash_commits_groups (W : Int) (commits : List Commit) : List (List Commit) :=
  flushEmit (squashLoop W commits ⟨[], none, []⟩)

/-- The number of per-squash log lines `squash_commits` prints (source lines
159-163).  The `for old_commits, new_commit in squashed_commits` logging loop
is nested INSIDE the `if len(current_squash_group) > 1` block of the final
flush, so no line is printed unless that final flush fires. -/
def squash_commits_log_count (W : Int) (commits : List Commit) : Nat :=
  let s := squashLoop W commits ⟨[], none, []⟩
  if 1 < s.current_squash_group.length then s.squashed_commits.length + 1 else 0

/-- Model of `combined_message` in `squash_commit_group` (source lines
197-198): `'\n\n'.join` of the members' messages, fetched per member hash in
group (i.e. chronological) order. -/
def joinBlankSep : List (List Char) → List Char
  | [] => []
  | [m] => m
  | m :: ms => m ++ '\n' :: '\n' :: joinBlankSep ms

/-- The combined message of a group (source lines 197-198). -/
def combined_message (commit_group : List Commit) : List Char :=
  joinBlankSep (commit_group.map (fun c => c.message))

/-- A git command issued by the script, as recorded in the run trace.
`checkout` is `git checkout <branch>` (line 69), `resetHard` is
`git reset --hard ORIG_HEAD` (line 74), `logList` is the
`git log --reverse --pretty=format:... <branch>` listing (line 81),
`showMsg` is `git log --format=%B -n 1 <hash>` (lines 94, 125, 161, 198),
`tagContains` is `git tag --contains <hash>` (lines 99, 130), and
`rebaseOnto s e` is `git rebase --onto s^ s e` (line 208).  Note that
`rebaseOnto` carries no message: the executed command does not pass the
combined message (the `--msg-file` variant on line 209 is commented out). -/
inductive GitAct where
  | checkout (branch : List Char)
  | resetHard
  | logList (branch : List Char)
  | showMsg (hash : Nat)
  | tagContains (hash : Nat)
  | rebaseOnto (startHash endHash : Nat)
deriving DecidableEq, Repr

/-- The git backend as an oracle: whether `git checkout b` succeeds, the
parsed commit list `git log --reverse` yields for a branch, and whether a
`git rebase --onto s^ s e` succeeds.  Message and tag queries are answered
from the `Commit` records themselves (`message`, `tagged`). -/
structure Backend where
  checkoutOk : List Char → Bool
  commits : List Char → List Commit
  rebaseOk : Nat → Nat → Bool

/-- A default commit record (list-end projections below are only applied to
non-empty groups, where the default is irrelevant). -/
def commitDefault : Commit := ⟨0, [], 0, [], false⟩

/-- The commands issued by `squash_commit_group` (source lines 195-216) for a
group, and whether the rebase succeeded: one message fetch per member (for
`combined_message`), then `git rebase --onto start^ start end` with
`start = commit_group[0][0]` and `end = commit_group[-1][0]`.  On failure the
function logs, removes its temporary file (no git command) and re-raises: no
restoring command is issued. -/
def runGroupRebase (B : Backend) (commit_group : List Commit) : List GitAct × Bool :=
  (commit_group.map (fun x => GitAct.showMsg x.hash) ++
      [GitAct.rebaseOnto (commit_group.headD commitDefault).hash
        (commit_group.getLastD commitDefault).hash],
    B.rebaseOk (commit_group.headD commitDefault).hash
      (commit_group.getLastD commitDefault).hash)

/-- The commands one loop iteration of `squash_commits` issues and whether it
raises: the current commit's message and tag queries (lines 94, 99), then in
the branch with a next commit also that commit's message and tag queries
(lines 125, 130); any flush of a group of size > 1 runs `squash_commit_group`,
whose rebase failure raises (uncaught inside `squash_commits`). -/
def stepActs (B : Backend) (W : Int) (c : Commit) (next? : Option Commit)
    (s : LoopState) : List GitAct × Bool :=
  let base := [GitAct.showMsg c.hash, GitAct.tagContains c.hash]
  if isSpecialCommit c then
    if 1 < s.current_squash_group.length then
      let r := runGroupRebase B s.current_squash_group
      (base ++ r.fst, !r.snd)
    else (base, false)
  else
    match next? with
    | none => (base, false)
    | some next =>
      let base2 := base ++ [GitAct.showMsg next.hash, GitAct.tagContains next.hash]
      if pairMerge W c next then
        if jira_number_matches_or_is_irrelevant s.current_jira_number
            (extract_jira_number c.message) then
          (base2, false)
        else if 1 < s.current_squash_group.length then
          let r := runGroupRebase B s.current_squash_group
          (base2 ++ r.fst, !r.snd)
        else (base2, false)
      else if 1 < s.current_squash_group.length then
        let r := runGroupRebase B s.current_squash_group
        (base2 ++ r.fst, !r.snd)
      else (base2, false)

/-- The loop of `squash_commits` with its command trace: on a raise the trace
stops at the failing command and the exception propagates. -/
def squashLoopE (B : Backend) (W : Int) : List Commit → LoopState → List GitAct × Bool × LoopState
  | [], s => ([], false, s)
  | c :: rest, s =>
    let a := stepActs B W c rest.head? s
    let s' := squashStep W c rest.head? s
    if a.snd then (a.fst, true, s')
    else
      let r := squashLoopE B W rest s'
      (a.fst ++ r.fst, r.snd.fst, r.snd.snd)

/-- Model of `squash_commits(branch)` (source lines 65-163) as the trace of
git commands it issues and whether it raises.  A checkout failure is caught
(lines 70-78): the handler attempts `git reset --hard ORIG_HEAD` and re-raises
("to stop the script").  Nothing else in the function is guarded, so a rebase
failure anywhere propagates with no further git command.  On a successful
final flush the logging loop (lines 159-163) fetches each squashed group's new
commit message. -/
def squash_commits_run (B : Backend) (W : Int) (branch : List Char) : List GitAct × Bool :=
  if B.checkoutOk branch then
    let pre := [GitAct.checkout branch, GitAct.logList branch]
    let cs := B.commits branch
    let r := squashLoopE B W cs ⟨[], none, []⟩
    if r.snd.fst then (pre ++ r.fst, true)
    else
      let s := r.snd.snd
      if 1 < s.current_squash_group.length then
        let g := runGroupRebase B s.current_squash_group
        if g.snd then
          (pre ++ r.fst ++ g.fst ++
            (s.squashed_commits ++ [s.current_squash_group]).map
              (fun grp => GitAct.showMsg (grp.getLastD commitDefault).hash),
            false)
        else (pre ++ r.fst ++ g.fst, true)
      else (pre ++ r.fst, false)
  else ([GitAct.checkout branch, GitAct.resetHard], true)

/-- Model of the branch loop of `main` (source lines 219-232): branches are
processed in order inside one `try`, so the first branch whose
`squash_commits` raises terminates the whole run (`exit(1)`); `true` in the
second component means the run aborted with exit code 1. -/
def branches_run (B : Backend) (W : Int) : List (List Char) → List GitAct × Bool
  | [] => ([], false)
  | b :: rest =>
    let r := squash_commits_run B W b
    if r.snd then (r.fst, true)
    else
      let r2 := branches_run B W rest
      (r.fst ++ r2.fst, r2.snd)

/-- Commit A of the spec's first worked example: author X, t = 0. -/
def exA : Commit := ⟨0, "X".toList, 0, [], false⟩

/-- Commit B of the spec's first worked example: author X, t = 100. -/
def exB : Commit := ⟨1, "X".toList, 100, [], false⟩

/-- Commit C of the spec's first worked example: author Y, t = 150. -/
def exC : Commit := ⟨2, "Y".toList, 150, [], false⟩

/-- C2: on the spec's worked example A(X,0), B(X,100), C(Y,150) with a
200-second window, the code emits NO group at all and prints no squash log
line — not the claimed single group containing A and B.  When the pair (B, C)
fails the same-author test, the open group still holds only A (B was never
added: the flush branch resets the group without starting a new one from B),
so the size-1 group is discarded; the final group is the singleton containing
C.  Nothing is rewritten. -/
theorem C2_example_nothing_squashed :
    squash_commits_groups 200 [exA, exB, exC] = [] ∧
      squash_commits_log_count 200 [exA, exB, exC] = 0 := by decide

/-- First commit of the JIRA worked example, key ABC-123. -/
def exJ0 : Commit := ⟨0, "X".toList, 0, "ABC-123 first change".toList, false⟩

/-- Second commit of the JIRA worked example, key ABC-123. -/
def exJ1 : Commit := ⟨1, "X".toList, 100, "ABC-123 second change".toList, false⟩

/-- Third commit of the JIRA worked example, key XYZ-9. -/
def exJ2 : Commit := ⟨2, "X".toList, 200, "XYZ-9 unrelated".toList, false⟩

/-- C3: on three same-author, time-adjacent commits with JIRA keys ABC-123,
ABC-123, XYZ-9, the code emits the single group of all THREE commits: the
last commit of the list is appended unconditionally (source line 153) without
any correlation-key check, so the XYZ-9 commit does not start a new group —
it joins the ABC-123 group. -/
theorem C3_example_third_commit_joins_group :
    extract_jira_number exJ0.message = some ("ABC-123".toList) ∧
      extract_jira_number exJ2.message = some ("XYZ-9".toList) ∧
      squash_commits_groups SQUASH_TIME_DIFFERENCE [exJ0, exJ1, exJ2]
        = [[exJ0, exJ1, exJ2]] := by decide

/-- First commit of the C8 scenario. -/
def exN0 : Commit := ⟨0, "X".toList, 0, [], false⟩

/-- Second commit of the C8 scenario. -/
def exN1 : Commit := ⟨1, "X".toList, 100, [], false⟩

/-- Third commit of the C8 scenario: a merge commit, hence a boundary. -/
def exN2 : Commit := ⟨2, "X".toList, 200, "Merge branch feature".toList, false⟩

/-- C8: a branch on which exactly one squash is performed (the group of the
first two commits, flushed when the boundary commit is met) but ZERO per-squash
log lines are printed: the logging loop (source lines 159-163) is nested
inside the final `if len(current_squash_group) > 1` block, and here the final
group is empty. -/
theorem C8_squash_without_log_line :
    (squash_commits_groups SQUASH_TIME_DIFFERENCE [exN0, exN1, exN2]).length = 1 ∧
      squash_commits_log_count SQUASH_TIME_DIFFERENCE [exN0, exN1, exN2] = 0 := by decide

/-- First commit of the C1 counterexample branch: author X, t = 0. -/
def exP0 : Commit := ⟨0, "X".toList, 0, [], false⟩

/-- Second commit of the C1 counterexample branch: author X, t = 100. -/
def exP1 : Commit := ⟨1, "X".toList, 100, [], false⟩

/-- Third commit of the C1 counterexample branch: author Y, t = 150. -/
def exP2 : Commit := ⟨2, "Y".toList, 150, [], false⟩

/-- C1 counterexample: the emitted groups do NOT cover the non-boundary
commits.  On the branch X(t=0), X(t=100), Y(t=150) — no boundaries, no
filtered commits, the source's own two-week window — the pass emits no group
at all, so the non-boundary commits belong to no emitted group; in
particular the maximal mergeable run consisting of the first two commits is
not emitted (its last member is dropped when the following pair fails the
same-author test). -/
theorem C1_counterexample :
    ¬ (∀ c ∈ [exP0, exP1, exP2], isSpecialCommit c = false →
        ∃ g ∈ squash_commits_groups SQUASH_TIME_DIFFERENCE [exP0, exP1, exP2], c ∈ g) := by
  decide

/-- First commit of the C4 scenario. -/
def exK0 : Commit := ⟨10, "ann".toList, 0, [], false⟩

/-- Second commit of the C4 scenario. -/
def exK1 : Commit := ⟨11, "ann".toList, 100, [], false⟩

/-- The branch name used in the C4 scenario. -/
def exBr4 : List Char := "master".toList

/-- A backend on which every checkout succeeds, the branch holds one mergeable
pair of commits, and every rebase fails. -/
def exB4 : Backend :=
  { checkoutOk := fun _ => true, commits := fun _ => [exK0, exK1],
    rebaseOk := fun _ _ => false }

/-- C4: when the backend reports a failure during the collapse (the rebase of
the group of commits 10 and 11 fails), `squash_commits` raises — the failure
is surfaced, aborting the run with exit code 1 — but the branch is NOT
restored first: the failing rebase is the last command of the whole trace and
`git reset --hard ORIG_HEAD` is never issued (that reset lives only in the
checkout-failure handler, source lines 70-78). -/
theorem C4_rebase_failure_no_restore :
    exB4.rebaseOk 10 11 = false ∧
      (squash_commits_run exB4 SQUASH_TIME_DIFFERENCE exBr4).snd = true ∧
      GitAct.rebaseOnto 10 11 ∈ (squash_commits_run exB4 SQUASH_TIME_DIFFERENCE exBr4).fst ∧
      GitAct.resetHard ∉ (squash_commits_run exB4 SQUASH_TIME_DIFFERENCE exBr4).fst ∧
      (squash_commits_run exB4 SQUASH_TIME_DIFFERENCE exBr4).fst.getLast?
        = some (GitAct.rebaseOnto 10 11) := by decide

/-- The first branch name of the C5 scenario. -/
def exBr5a : List Char := "b1".toList

/-- The second branch name of the C5 scenario. -/
def exBr5b : List Char := "b2".toList

/-- A backend on which checking out the first branch fails and everything else
succeeds. -/
def exB5 : Backend :=
  { checkoutOk := fun b => !(b == exBr5a), commits := fun _ => [],
    rebaseOk := fun _ _ => true }

/-- C5 counterexample: a checkout failure does NOT merely skip the branch.
With two branches where only the first one's checkout fails, the run aborts
(exit code 1) and the second branch is never checked out: the checkout
handler re-raises ("to stop the script", source line 78) and `main`'s single
`try` block terminates the branch loop. -/
theorem C5_counterexample :
    exB5.checkoutOk exBr5a = false ∧
      (branches_run exB5 SQUASH_TIME_DIFFERENCE [exBr5a, exBr5b]).snd = true ∧
      GitAct.checkout exBr5b ∉
        (branches_run exB5 SQUASH_TIME_DIFFERENCE [exBr5a, exBr5b]).fst := by decide

/-- First commit of the C6 scenario, message m1. -/
def exM0 : Commit := ⟨10, "ann".toList, 0, "m1".toList, false⟩

/-- Second commit of the C6 scenario, message m2. -/
def exM1 : Commit := ⟨11, "ann".toList, 100, "m2".toList, false⟩

/-- A backend on which every command succeeds. -/
def exB6 : Backend :=
  { checkoutOk := fun _ => true, commits := fun _ => [exM0, exM1],
    rebaseOk := fun _ _ => true }

/-- C6: `squash_commit_group` does build the combined message — the members'
message bodies in chronological order separated by one blank line — but the
executed backend request never carries it: the commands issued for the group
are the two message fetches and `git rebase --onto 10^ 10 11` (an act with no
message payload; the `--msg-file` variant, source line 209, is commented
out).  The collapse the claim describes does not happen: the combined message
is written to a temporary file and discarded. -/
theorem C6_combined_message_not_passed :
    combined_message [exM0, exM1] = "m1\n\nm2".toList ∧
      runGroupRebase exB6 [exM0, exM1]
        = ([GitAct.showMsg 10, GitAct.showMsg 11, GitAct.rebaseOnto 10 11], true) := by
  decide

/-- C9 counterexample: the `' ' in commit_data` condition CAN be true.  For
the line consisting of two spaces followed by `a b c d e`, the sixth-from-last
space-separated field boundary leaves the leftover leftmost field equal to the
one-space string, so the membership test holds and the
`Invalid commit format` exception is reachable at this input. -/
theorem C9_counterexample :
    [' '] ∈ pyRsplit5 ("  a b c d e".toList) := by decide

/-- Only the leftover (fuel-exhausted or final) chunk of `splitSpLeft` can
contain a space, and it is a suffix of the input: if the one-space string is
among the chunks, the input ends in a space. -/
theorem splitSpLeft_space_mem :
    ∀ (l : List Char) (n : Nat), [' '] ∈ splitSpLeft n l → l.getLast? = some ' ' := by
  intro l
  induction l with
  | nil => intro n h; simp [splitSpLeft] at h
  | cons c t ih =>
    intro n h
    cases n with
    | zero =>
      simp only [splitSpLeft, List.mem_singleton] at h
      rw [← h]
      decide
    | succ m =>
      rw [splitSpLeft] at h
      by_cases hc : c = ' '
      · rw [if_pos hc] at h
        rcases List.mem_cons.mp h with h1 | h2
        · exact absurd h1 (by decide)
        · have ht := ih m h2
          cases t with
          | nil => simp at ht
          | cons x t2 => simpa using ht
      · rw [if_neg hc] at h
        cases hsp : splitSpLeft (m + 1) t with
        | nil =>
          rw [hsp] at h
          simp only [List.mem_singleton] at h
          injection h with h1 _
          exact absurd h1.symm hc
        | cons p ps =>
          rw [hsp] at h
          rcases List.mem_cons.mp h with h1 | h2
          · injection h1 with h1a _
            exact absurd h1a.symm hc
          · have ht := ih (m + 1) (by rw [hsp]; exact List.mem_cons_of_mem _ h2)
            cases t with
            | nil => simp at ht
            | cons x t2 => simpa using ht

/-- C9 (amended): for every input line whose first character is not a space —
in particular every line of the `git log --pretty=format:%H %an <%ae> %ct`
output, which starts with the commit hash — the condition
`' ' in commit_info.rsplit(' ', 5)` is false, so the `Invalid commit format`
exception (source lines 89-90 and 119-120) cannot fire on such lines.  The
condition is not unreachable for arbitrary strings: see `C9_counterexample`,
a line starting with a space on which it holds. -/
theorem C9_space_check_unreachable :
    ∀ (line : List Char), line.head? ≠ some ' ' → [' '] ∉ pyRsplit5 line := by
  intro line hhead hmem
  unfold pyRsplit5 at hmem
  rw [List.mem_reverse] at hmem
  rcases List.mem_map.mp hmem with ⟨q, hq, hqr⟩
  have hq2 : q = [' '] := by
    have h3 := congrArg List.reverse hqr
    simpa using h3
  rw [hq2] at hq
  have h4 := splitSpLeft_space_mem line.reverse 5 hq
  rw [List.getLast?_reverse] at h4
  exact hhead h4

/-- C9 witness: a well-formed commit line (hash first) on which the amended
theorem applies and the split contains no one-space field. -/
theorem C9_space_check_unreachable_witness :
    (("abc alice <a@b.c> 7".toList).head? ≠ some ' ') ∧
      [' '] ∉ pyRsplit5 ("abc alice <a@b.c> 7".toList) :=
  ⟨by decide, C9_space_check_unreachable _ (by decide)⟩

/-- Reading back the code of a character packed from a valid codepoint. -/
theorem toNat_ofNat_valid (n : Nat) (h : n.isValidChar) : (Char.ofNat n).toNat = n := by
  simp [Char.ofNat, h, Char.ofNatAux, Char.toNat, UInt32.toNat, BitVec.toNat_ofNatLt]

/-- ASCII lowering is idempotent on characters: a lowered character is never
in the uppercase range again. -/
theorem pyLowerChar_idem (c : Char) : pyLowerChar (pyLowerChar c) = pyLowerChar c := by
  unfold pyLowerChar
  by_cases h : 65 ≤ c.toNat ∧ c.toNat ≤ 90
  · rw [if_pos h]
    have ht : (Char.ofNat (c.toNat + 32)).toNat = c.toNat + 32 :=
      toNat_ofNat_valid _ (Or.inl (by omega))
    rw [ht, if_neg (by omega)]
  · rw [if_neg h, if_neg h]

/-- ASCII lowering is idempotent on strings. -/
theorem pyLower_idem (s : List Char) : pyLower (pyLower s) = pyLower s := by
  unfold pyLower
  rw [List.map_map]
  exact List.map_congr_left (fun a _ => pyLowerChar_idem a)

/-- A successful dict lookup returns an entry of the association list. -/
theorem dictGet_mem :
    ∀ (m : List (List Char × List Char)) (k v : List Char),
      dictGet m k = some v → (k, v) ∈ m := by
  intro m
  induction m with
  | nil => intro k v h; simp [dictGet] at h
  | cons e rest ih =>
    intro k v h
    rw [dictGet] at h
    cases hr : dictGet rest k with
    | some v2 =>
      rw [hr] at h
      injection h with h2
      exact List.mem_cons_of_mem _ (h2 ▸ ih k v2 hr)
    | none =>
      rw [hr] at h
      by_cases he : e.fst = k
      · rw [if_pos he] at h
        injection h with h2
        rw [← he, ← h2]
        simp
      · rw [if_neg he] at h
        exact absurd h (by simp)

/-- A failed dict lookup means no entry carries the key. -/
theorem dictGet_none :
    ∀ (m : List (List Char × List Char)) (k : List Char),
      dictGet m k = none → ∀ e ∈ m, e.fst ≠ k := by
  intro m
  induction m with
  | nil => intro k _ e he; simp at he
  | cons e0 rest ih =>
    intro k h e he
    rw [dictGet] at h
    cases hr : dictGet rest k with
    | some v2 => rw [hr] at h; exact absurd h (by simp)
    | none =>
      rw [hr] at h
      rcases List.mem_cons.mp he with rfl | hmem
      · intro hk
        rw [if_pos hk] at h
        exact absurd h (by simp)
      · exact ih k hr e hmem

/-- When some entry carries the key and every entry carrying it agrees on the
value, the lookup returns that value. -/
theorem dictGet_all :
    ∀ (m : List (List Char × List Char)) (k v : List Char),
      (∃ e ∈ m, e.fst = k) → (∀ e ∈ m, e.fst = k → e.snd = v) →
      dictGet m k = some v := by
  intro m
  induction m with
  | nil => intro k v hex _; rcases hex with ⟨e, he, _⟩; simp at he
  | cons e0 rest ih =>
    intro k v hex hall
    rw [dictGet]
    cases hr : dictGet rest k with
    | some v2 =>
      have hmem := dictGet_mem rest k v2 hr
      have h2 : v2 = v := hall (k, v2) (List.mem_cons_of_mem _ hmem) rfl
      rw [h2]
    | none =>
      rcases hex with ⟨e, he, hek⟩
      rcases List.mem_cons.mp he with rfl | hmem
      · rw [if_pos hek, hall e (List.mem_cons_self _ _) hek]
      · exact absurd hek (dictGet_none rest k hr e hmem)

/-- Provenance of an alias-table entry: it records some developer's
identifier, lowered, mapped to that developer's lowered primary identity. -/
theorem mem_mkAuthorMap :
    ∀ (devs : List (List (List Char))) (k v : List Char),
      (k, v) ∈ mkAuthorMap devs →
      ∃ d ∈ devs, ∃ i ∈ d, k = pyLower i ∧ v = pyLower (d.headD []) := by
  intro devs k v h
  unfold mkAuthorMap at h
  rw [List.mem_flatMap] at h
  rcases h with ⟨d, hd, hmem⟩
  rw [List.mem_map] at hmem
  rcases hmem with ⟨i, hi, heq⟩
  have h1 := congrArg Prod.fst heq
  have h2 := congrArg Prod.snd heq
  simp only at h1 h2
  exact ⟨d, hd, i, hi, h1.symm, h2.symm⟩

/-- Every developer identifier contributes its alias-table entry. -/
theorem mkAuthorMap_mem_of :
    ∀ (devs : List (List (List Char))) (d : List (List Char)) (i : List Char),
      d ∈ devs → i ∈ d → (pyLower i, pyLower (d.headD [])) ∈ mkAuthorMap devs := by
  intro devs d i hd hi
  unfold mkAuthorMap
  rw [List.mem_flatMap]
  exact ⟨d, hd, List.mem_map.mpr ⟨i, hi, rfl⟩⟩

/-- C10: for every alias table built by the `author_map` construction from a
developers list whose lower-cased identifiers are pairwise disjoint across
distinct developers, `get_canonical_author` is idempotent: resolving a
resolved identifier returns it unchanged.  (A hit returns the lowered primary
identity of the contributing developer; that string is its own lowered form, it
is itself a key of the table, and by disjointness every entry under that key
carries the same value, so the second lookup returns it again.  A miss returns
the input, which misses again.) -/
theorem C10_resolver_idempotent :
    ∀ (devs : List (List (List Char))),
      (∀ d1 ∈ devs, ∀ d2 ∈ devs, d1 ≠ d2 → ∀ i ∈ d1, ∀ j ∈ d2, pyLower i ≠ pyLower j) →
      ∀ (s : List Char),
        get_canonical_author (mkAuthorMap devs) (get_canonical_author (mkAuthorMap devs) s)
          = get_canonical_author (mkAuthorMap devs) s := by
  intro devs hdisj s
  unfold get_canonical_author
  cases h1 : dictGet (mkAuthorMap devs) (pyLower s) with
  | none => simp [h1]
  | some v =>
    simp only [h1, Option.getD_some]
    rcases mem_mkAuthorMap devs (pyLower s) v (dictGet_mem _ _ _ h1) with
      ⟨d, hd, i, hi, hk, hv⟩
    have hne : d ≠ [] := by
      intro h0
      rw [h0] at hi
      simp at hi
    have hxmem : d.headD [] ∈ d := by
      cases d with
      | nil => exact absurd rfl hne
      | cons x t => exact List.mem_cons_self _ _
    have hvlow : pyLower v = v := by rw [hv]; exact pyLower_idem _
    have hget : dictGet (mkAuthorMap devs) (pyLower v) = some v := by
      rw [hvlow, hv]
      apply dictGet_all
      · exact ⟨(pyLower (d.headD []), pyLower (d.headD [])),
          mkAuthorMap_mem_of devs d _ hd hxmem, rfl⟩
      · intro e he hek
        rcases e with ⟨ek, ev⟩
        rcases mem_mkAuthorMap devs ek ev he with ⟨d2, hd2, i2, hi2, hk2, hv2⟩
        simp only at hek ⊢
        by_cases hdd : d2 = d
        · rw [hv2, hdd]
        · rw [hk2] at hek
          exact absurd hek (hdisj d2 hd2 d hd hdd i2 hi2 (d.headD []) hxmem)
    rw [hget]
    rfl

/-- A two-developer table with disjoint lowered identifiers, for the C10
witness. -/
def devsW : List (List (List Char)) :=
  [["Jane Doe".toList, "jdoe@x.com".toList], ["Bob B".toList, "bob@z.org".toList]]

/-- C10 witness: idempotence at a concrete alias table and identifier. -/
theorem C10_resolver_idempotent_witness :
    (∀ d1 ∈ devsW, ∀ d2 ∈ devsW, d1 ≠ d2 → ∀ i ∈ d1, ∀ j ∈ d2, pyLower i ≠ pyLower j) ∧
      get_canonical_author (mkAuthorMap devsW)
          (get_canonical_author (mkAuthorMap devsW) ("JDOE@X.COM".toList))
        = get_canonical_author (mkAuthorMap devsW) ("JDOE@X.COM".toList) :=
  ⟨by decide, C10_resolver_idempotent devsW (by decide) _⟩

/-- What one run of `squash_commits` guarantees about an emitted group `g` of
a branch with commit list `cs`: it has at least two members, it is a
contiguous subsegment of `cs`, none of its members is a boundary commit, and
each pair of consecutive members has the same canonical author with a strictly
positive time delta within the window. -/
def GroupOK (W : Int) (cs g : List Commit) : Prop :=
  1 < g.length ∧ (∃ pre suf, cs = pre ++ g ++ suf) ∧
    (∀ c ∈ g, isSpecialCommit c = false) ∧ List.Chain' (pairMerge W) g

/-- Flushing preserves the group guarantees: when the open group is emitted it
is a suffix of the consumed prefix `done` of the branch, hence contiguous. -/
theorem flushEmit_ok (W : Int) (cs done tail : List Commit) (s : LoopState)
    (hcat : cs = done ++ tail)
    (hsuf : s.current_squash_group = [] ∨ ∃ pre, done = pre ++ s.current_squash_group)
    (hns : ∀ x ∈ s.current_squash_group, isSpecialCommit x = false)
    (hchain : List.Chain' (pairMerge W) s.current_squash_group)
    (hemit : ∀ g ∈ s.squashed_commits, GroupOK W cs g) :
    ∀ g ∈ flushEmit s, GroupOK W cs g := by
  intro g hg
  unfold flushEmit at hg
  by_cases hlen : 1 < s.current_squash_group.length
  · rw [if_pos hlen] at hg
    rcases List.mem_append.mp hg with hold | hnew
    · exact hemit g hold
    · rw [List.mem_singleton] at hnew
      subst hnew
      rcases hsuf with hnil | ⟨pre, hpre⟩
      · rw [hnil] at hlen; simp at hlen
      · exact ⟨hlen, ⟨pre, tail, by rw [hcat, hpre, List.append_assoc]⟩, hns, hchain⟩
  · rw [if_neg hlen] at hg
    exact hemit g hg

/-- The loop invariant is preserved by one iteration.  The invariant: the open
group is a suffix of the consumed prefix `done`, its members are non-boundary,
the chain of pairwise mergeability extends from the group to the upcoming
commit (a member is only ever appended after the author/time test against the
commit that immediately follows it), and every group emitted so far satisfies
`GroupOK`. -/
theorem squashStep_inv (W : Int) (cs done rest : List Commit) (c : Commit) (s : LoopState)
    (hcat : cs = done ++ c :: rest)
    (hsuf : s.current_squash_group = [] ∨ ∃ pre, done = pre ++ s.current_squash_group)
    (hns : ∀ x ∈ s.current_squash_group, isSpecialCommit x = false)
    (hchain : List.Chain' (pairMerge W) (s.current_squash_group ++ [c]))
    (hemit : ∀ g ∈ s.squashed_commits, GroupOK W cs g) :
    ((squashStep W c rest.head? s).current_squash_group = [] ∨
        ∃ pre, done ++ [c] = pre ++ (squashStep W c rest.head? s).current_squash_group) ∧
      (∀ x ∈ (squashStep W c rest.head? s).current_squash_group, isSpecialCommit x = false) ∧
      List.Chain' (pairMerge W)
        ((squashStep W c rest.head? s).current_squash_group ++ rest.head?.toList) ∧
      (∀ g ∈ (squashStep W c rest.head? s).squashed_commits, GroupOK W cs g) := by
  have hchain_g : List.Chain' (pairMerge W) s.current_squash_group :=
    (List.chain'_append.mp hchain).1
  have hflush : ∀ g ∈ flushEmit s, GroupOK W cs g :=
    flushEmit_ok W cs done (c :: rest) s hcat hsuf hns hchain_g hemit
  have happend_suf : ∃ pre, done ++ [c] = pre ++ (s.current_squash_group ++ [c]) := by
    rcases hsuf with hnil | ⟨pre, hpre⟩
    · exact ⟨done, by rw [hnil]; simp⟩
    · exact ⟨pre, by rw [hpre, List.append_assoc]⟩
  cases hsp : isSpecialCommit c with
  | true =>
    have hstep : squashStep W c rest.head? s =
        ⟨[], none, flushEmit s⟩ := by
      simp [squashStep, hsp]
    rw [hstep]
    refine ⟨Or.inl rfl, by simp, ?_, hflush⟩
    cases rest <;> simp
  | false =>
    have happend_ns : ∀ x ∈ s.current_squash_group ++ [c], isSpecialCommit x = false := by
      intro x hx
      rcases List.mem_append.mp hx with h1 | h2
      · exact hns x h1
      · rw [List.mem_singleton] at h2
        rw [h2]
        exact hsp
    cases rest with
    | nil =>
      have hstep : squashStep W c ([] : List Commit).head? s =
          ⟨s.current_squash_group ++ [c], s.current_jira_number, s.squashed_commits⟩ := by
        simp [squashStep, hsp]
      rw [hstep]
      refine ⟨Or.inr happend_suf, happend_ns, ?_, hemit⟩
      simpa using hchain
    | cons cn rest2 =>
      by_cases hpm : pairMerge W c cn
      · by_cases hj : jira_number_matches_or_is_irrelevant s.current_jira_number
            (extract_jira_number c.message) = true
        · have hstep : squashStep W c (cn :: rest2).head? s =
              ⟨s.current_squash_group ++ [c],
                match extract_jira_number c.message with
                | some j => some j
                | none => s.current_jira_number,
                s.squashed_commits⟩ := by
            simp [squashStep, hsp, hpm, hj]
          rw [hstep]
          refine ⟨Or.inr happend_suf, happend_ns, ?_, hemit⟩
          refine List.chain'_append.mpr ⟨hchain, List.chain'_singleton _, ?_⟩
          intro x hx y hy
          simp only [List.getLast?_concat, Option.mem_def, Option.some.injEq] at hx
          simp only [List.head?_cons, Option.toList_some, Option.mem_def,
            Option.some.injEq] at hy
          rw [← hx, ← hy]
          exact hpm
        · have hstep : squashStep W c (cn :: rest2).head? s =
              ⟨[], none, flushEmit s⟩ := by
            simp [squashStep, hsp, hpm, hj]
          rw [hstep]
          exact ⟨Or.inl rfl, by simp, by simp, hflush⟩
      · have hstep : squashStep W c (cn :: rest2).head? s =
            ⟨[], none, flushEmit s⟩ := by
          simp [squashStep, hsp, hpm]
        rw [hstep]
        exact ⟨Or.inl rfl, by simp, by simp, hflush⟩

/-- The loop invariant carried through the whole loop, final flush included. -/
theorem squashLoop_inv (W : Int) (cs : List Commit) :
    ∀ (rest done : List Commit) (s : LoopState),
      cs = done ++ rest →
      (s.current_squash_group = [] ∨ ∃ pre, done = pre ++ s.current_squash_group) →
      (∀ x ∈ s.current_squash_group, isSpecialCommit x = false) →
      List.Chain' (pairMerge W) (s.current_squash_group ++ rest.head?.toList) →
      (∀ g ∈ s.squashed_commits, GroupOK W cs g) →
      ∀ g ∈ flushEmit (squashLoop W rest s), GroupOK W cs g := by
  intro rest
  induction rest with
  | nil =>
    intro done s hcat hsuf hns hchain hemit
    rw [squashLoop]
    refine flushEmit_ok W cs done [] s hcat hsuf hns ?_ hemit
    simpa using hchain
  | cons c rest2 ih =>
    intro done s hcat hsuf hns hchain hemit
    rw [squashLoop]
    have hchain2 : List.Chain' (pairMerge W) (s.current_squash_group ++ [c]) := by
      simpa using hchain
    have hinv := squashStep_inv W cs done rest2 c s hcat hsuf hns hchain2 hemit
    exact ih (done ++ [c]) (squashStep W c rest2.head? s)
      (by rw [hcat]; simp) hinv.1 hinv.2.1 hinv.2.2.1 hinv.2.2.2

/-- Every group a run of `squash_commits` emits satisfies `GroupOK`. -/
theorem groups_ok (W : Int) (cs : List Commit) :
    ∀ g ∈ squash_commits_groups W cs, GroupOK W cs g := by
  unfold squash_commits_groups
  refine squashLoop_inv W cs cs [] ⟨[], none, []⟩ (by simp) (Or.inl rfl) (by simp) ?_ (by simp)
  cases cs <;> simp [List.chain'_singleton]

/-- C1 (amended): the emitted groups of one grouping pass are not a partition
of the non-boundary commits into maximal runs (see `C1_counterexample`), but
each emitted group is a contiguous run of the branch's oldest-first commit
sequence with at least two members, contains no boundary commit, and its
consecutive members pairwise satisfy the same-canonical-author and strictly
positive time-delta-within-window rule.  Coverage and maximality fail because
the last commit of a mergeable run is discarded, not re-grouped, whenever the
pair formed with the following commit is rejected. -/
theorem C1_groups_contiguous_mergeable (W : Int) (cs : List Commit) :
    ∀ g ∈ squash_commits_groups W cs, GroupOK W cs g :=
  groups_ok W cs

/-- First commit of the C1 witness branch. -/
def exW0 : Commit := ⟨0, "ann".toList, 0, [], false⟩

/-- Second commit of the C1 witness branch. -/
def exW1 : Commit := ⟨1, "ann".toList, 50, [], false⟩

/-- C1 witness: the group guarantees at a concrete two-commit branch whose
single emitted group is the whole branch. -/
theorem C1_groups_contiguous_mergeable_witness :
    GroupOK SQUASH_TIME_DIFFERENCE [exW0, exW1] [exW0, exW1] :=
  C1_groups_contiguous_mergeable SQUASH_TIME_DIFFERENCE [exW0, exW1] [exW0, exW1] (by decide)

/-- C7: a boundary commit — one whose message contains "revert", "merge" or
"pull" (case-insensitively) or that is reachable from a tag — is a member of
no emitted group, for every branch, window and position (the boundary test
precedes both append sites, including the unconditional last-commit append);
and meeting one flushes the open group (emitted only when its size exceeds
one) and resets both the group and the tracked correlation key. -/
theorem C7_boundary_excluded :
    (∀ (W : Int) (cs : List Commit), ∀ g ∈ squash_commits_groups W cs,
        ∀ c ∈ g, isSpecialCommit c = false) ∧
      (∀ (W : Int) (c : Commit) (next? : Option Commit) (s : LoopState),
        isSpecialCommit c = true →
        squashStep W c next? s =
          { current_squash_group := [], current_jira_number := none,
            squashed_commits := flushEmit s }) := by
  constructor
  · intro W cs g hg c hc
    exact (groups_ok W cs g hg).2.2.1 c hc
  · intro W c next? s h
    simp [squashStep, h]

/-- First commit of the C7 witness branch. -/
def exW70 : Commit := ⟨0, "bob".toList, 0, [], false⟩

/-- Second commit of the C7 witness branch. -/
def exW71 : Commit := ⟨1, "bob".toList, 50, [], false⟩

/-- C7 witness: exclusion applied to a member of a concretely emitted group. -/
theorem C7_boundary_excluded_witness : isSpecialCommit exW70 = false :=
  C7_boundary_excluded.1 SQUASH_TIME_DIFFERENCE [exW70, exW71] [exW70, exW71]
    (by decide) exW70 (by decide)

/-- C5 (amended): a backend failure or timeout during `git checkout` of a
branch does NOT merely skip that branch: the handler attempts
`git reset --hard ORIG_HEAD` and re-raises, and `main`'s single `try` block
then terminates the whole run with exit code 1, so no later branch is
processed. -/
theorem C5_checkout_failure_aborts_run (B : Backend) (W : Int) (b : List Char)
    (rest : List (List Char)) (h : B.checkoutOk b = false) :
    branches_run B W (b :: rest) = ([GitAct.checkout b, GitAct.resetHard], true) := by
  simp [branches_run, squash_commits_run, h]

/-- C5 witness: the amended behaviour at the concrete two-branch backend of
`C5_counterexample`. -/
theorem C5_checkout_failure_aborts_run_witness :
    branches_run exB5 SQUASH_TIME_DIFFERENCE [exBr5a, exBr5b]
      = ([GitAct.checkout exBr5a, GitAct.resetHard], true) :=
  C5_checkout_failure_aborts_run exB5 SQUASH_TIME_DIFFERENCE exBr5a [exBr5b] (by decide)
